import Mathlib

/-!
Verification of the Wordle statistics and parsing core of the `jontras_bot`
repository.  The TypeScript sources `src/features/wordle/statistics.ts` and
`src/features/wordle/parser.ts` are shallowly embedded below: JavaScript
numbers that stay integral become `ℤ`, fractional score arithmetic is done in
`ℚ` (exact rationals), JavaScript `NaN` (which arises only in the parser) is
modelled by `Option ℤ` with `none` standing for `NaN`, and JavaScript objects
used as string-keyed records become functions together with explicit key sets.
-/

namespace JontrasBot

/-- The submission record, `WordleResult` from `src/features/wordle/types.ts`.
`wordleDay` is the puzzle index, `guesses` is the guess count with `-1` the
failure sentinel, `secondsSinceMidnight` the local-time submission second. -/
structure WordleResult where
  wordleDay : ℤ
  guesses : ℤ
  hardMode : Bool
  grid : String
  playerId : String
  secondsSinceMidnight : ℤ
deriving DecidableEq, Repr

/-- `SECONDS_IN_DAY = 24 * 60 * 60` from `statistics.ts`. -/
def SECONDS_IN_DAY : ℤ := 24 * 60 * 60

/-- `positiveGuesses` from `parser.ts`: the failure sentinel counts as 6. -/
def positiveGuesses (guesses : ℤ) : ℤ := if guesses = -1 then 6 else guesses

/-- `getParticipants` from `statistics.ts`: the set of player ids occurring in
the submission list (the JS code builds `new Set(results.map(r => r.playerId))`). -/
def getParticipants (results : List WordleResult) : Finset String :=
  (results.map (fun r => r.playerId)).toFinset

/-- A solved (non-failure) submission for puzzle day `d`. -/
def SolvedFor (d : ℤ) (r : WordleResult) : Prop := r.wordleDay = d ∧ r.guesses ≠ -1

instance (d : ℤ) (r : WordleResult) : Decidable (SolvedFor d r) := by
  unfold SolvedFor; infer_instance

/-! ### getScores (`statistics.ts` lines 10–36)

The JS code folds over the submissions building a mutable
`Map<number, {guesses, winners}>` (`bestPerDay`); we embed the map as a
function `ℤ → Option (ℤ × Finset String)` and the loop body as `bestStep`. -/

/-- The per-day best map: day ↦ (best guess count so far, winners so far). -/
abbrev BestMap := ℤ → Option (ℤ × Finset String)

/-- One iteration of the `for (const result of results)` loop of `getScores`:
failure sentinels are skipped; a strictly better guess count replaces the
entry and resets the winner set; an equal guess count joins the winner set. -/
def bestStep (m : BestMap) (r : WordleResult) : BestMap :=
  if r.guesses = -1 then m
  else fun d =>
    if d = r.wordleDay then
      match m r.wordleDay with
      | none => some (r.guesses, {r.playerId})
      | some (g, ws) =>
        if r.guesses < g then some (r.guesses, {r.playerId})
        else if r.guesses = g then some (g, insert r.playerId ws)
        else some (g, ws)
    else m d

/-- The `bestPerDay` map built by `getScores` after the whole loop. -/
def bestPerDay (results : List WordleResult) : BestMap :=
  results.foldl bestStep (fun _ => none)

/-- The days that have an entry in `bestPerDay`: days with at least one solved
submission. -/
def scoreDays (results : List WordleResult) : Finset ℤ :=
  ((results.filter (fun r => r.guesses != -1)).map (fun r => r.wordleDay)).toFinset

/-- The points the second loop of `getScores` awards to player `p` for day `d`:
`1 / winners.size` when `p` is a winner of the day, `0` otherwise. -/
def dayScore (results : List WordleResult) (d : ℤ) (p : String) : ℚ :=
  match bestPerDay results d with
  | none => 0
  | some (_, ws) => if p ∈ ws then 1 / (ws.card : ℚ) else 0

/-- `getScores` from `statistics.ts`, as the function from a player id to the
score it receives on the leaderboard (absent keys read as 0). -/
def getScores (results : List WordleResult) (p : String) : ℚ :=
  ∑ d ∈ scoreDays results, dayScore results d p

/-- The key set of the leaderboard object `getScores` returns: every winner of
some day gets a key when the loop adds its weight. -/
def scoreKeys (results : List WordleResult) : Finset String :=
  (scoreDays results).biUnion (fun d =>
    match bestPerDay results d with
    | none => ∅
    | some (_, ws) => ws)

/-- The total number of points `getScores` hands out for puzzle day `d`,
summed over all players (all players occurring in the input). -/
def dayTotal (results : List WordleResult) (d : ℤ) : ℚ :=
  ∑ p ∈ getParticipants results, dayScore results d p

/-- `getWeeklyScores` from `statistics.ts`: filter the submissions to the
inclusive window `[startWordleDay, startWordleDay + windowSize - 1]` and score
them with `getScores`; the window size defaults to 7. -/
def getWeeklyScores (results : List WordleResult) (startWordleDay : ℤ)
    (windowSize : ℤ := 7) : String → ℚ :=
  let endWordleDay := startWordleDay + windowSize - 1
  let range := results.filter
    (fun r => decide (r.wordleDay ≥ startWordleDay) && decide (r.wordleDay ≤ endWordleDay))
  getScores range

/-! ### getAverages (`statistics.ts` lines 49–66)

The JS code makes one pass accumulating `leaderboard[playerId] += value` and
`counts[playerId] += 1`, then divides and rounds with
`Number((total / count).toFixed(2))`.  The two string-keyed records are
embedded as accumulator functions, the loop bodies as the step functions, and
`toFixed(2)` (round to nearest with ties up) as `round2`. -/

/-- Loop body for the totals record of `getAverages`. -/
def avgTotalsStep (acc : String → ℚ) (r : WordleResult) : String → ℚ :=
  fun p => if p = r.playerId then acc p + (positiveGuesses r.guesses : ℚ) else acc p

/-- Loop body for the counts record of `getAverages`. -/
def avgCountsStep (acc : String → ℕ) (r : WordleResult) : String → ℕ :=
  fun p => if p = r.playerId then acc p + 1 else acc p

/-- The totals record after the accumulation loop of `getAverages`. -/
def avgTotals (results : List WordleResult) : String → ℚ :=
  results.foldl avgTotalsStep (fun _ => 0)

/-- The counts record after the accumulation loop of `getAverages`. -/
def avgCounts (results : List WordleResult) : String → ℕ :=
  results.foldl avgCountsStep (fun _ => 0)

/-- Rounding to two decimal places, `Number(x.toFixed(2))`: nearest value with
two decimals, ties rounded up. -/
def round2 (x : ℚ) : ℚ := (round (x * 100) : ℤ) / 100

/-- `getAverages` from `statistics.ts`, as the function from a player id to
its displayed average (players without submissions read as 0). -/
def getAverages (results : List WordleResult) (p : String) : ℚ :=
  round2 (avgTotals results p / (avgCounts results p : ℚ))

/-- The submissions of one player, in input order (the filter used by
`getAverageTime`, and the per-player grouping of `getAverages`). -/
def playerResults (results : List WordleResult) (p : String) : List WordleResult :=
  results.filter (fun r => r.playerId == p)

/-! ### getDayLeaderboardsMulti (`statistics.ts` lines 77–97) -/

/-- The day-`wordleDay` solved submissions, the `filtered` list of
`getDayLeaderboardsMulti`. -/
def solvedForDay (results : List WordleResult) (wordleDay : ℤ) : List WordleResult :=
  results.filter (fun r => r.wordleDay == wordleDay && r.guesses != -1)

/-- The group of players that solved day `wordleDay` in exactly `g` guesses:
the `Set` the JS code stores under key `g` of its `Map`. -/
def guessGroup (results : List WordleResult) (wordleDay g : ℤ) : Finset String :=
  (((solvedForDay results wordleDay).filter (fun r => r.guesses == g)).map
    (fun r => r.playerId)).toFinset

/-- The key set of the `Map<number, Set<string>>` of `getDayLeaderboardsMulti`. -/
def dayGuessKeys (results : List WordleResult) (wordleDay : ℤ) : Finset ℤ :=
  ((solvedForDay results wordleDay).map (fun r => r.guesses)).toFinset

/-- `getDayLeaderboardsMulti` from `statistics.ts`: the map entries sorted
ascending by guess count (`.sort((a, b) => a.guesses - b.guesses)`); since the
keys are distinct, the sorted entry list is fully determined by the key set
and the groups, which is how it is written here. -/
def getDayLeaderboardsMulti (results : List WordleResult) (wordleDay : ℤ) :
    List (ℤ × Finset String) :=
  ((dayGuessKeys results wordleDay).sort (· ≤ ·)).map
    (fun g => (g, guessGroup results wordleDay g))

/-! ### getAverageTime (`statistics.ts` lines 99–109) -/

/-- `AverageTimeStats` from `types.ts`.  `std` lives in `ℝ` because the JS
code takes a square root. -/
structure AverageTimeStats where
  avg : ℚ
  std : ℝ

/-- The clamp `Math.min(result.secondsSinceMidnight, SECONDS_IN_DAY - 1)`. -/
def clampSeconds (x : ℤ) : ℚ := min (x : ℚ) ((SECONDS_IN_DAY : ℚ) - 1)

/-- `getAverageTime` from `statistics.ts`: mean and population standard
deviation (division by `N`) of the player's clamped submission times; an empty
history yields `{avg: 0, std: 0}`. -/
noncomputable def getAverageTime (results : List WordleResult) (playerId : String) :
    AverageTimeStats :=
  let prs := playerResults results playerId
  if prs.length = 0 then ⟨0, 0⟩
  else
    let values := prs.map (fun r => clampSeconds r.secondsSinceMidnight)
    let avg := values.sum / (values.length : ℚ)
    let variance := (values.map (fun value => (value - avg) ^ 2)).sum / (values.length : ℚ)
    ⟨avg, Real.sqrt (variance : ℝ)⟩

/-- The `values` list of `getAverageTime`: the player's clamped times. -/
def clampedTimes (results : List WordleResult) (playerId : String) : List ℚ :=
  (playerResults results playerId).map (fun r => clampSeconds r.secondsSinceMidnight)

/-- The `avg` of `getAverageTime`: arithmetic mean of the clamped times. -/
def meanTime (results : List WordleResult) (playerId : String) : ℚ :=
  (clampedTimes results playerId).sum / ((clampedTimes results playerId).length : ℚ)

/-- The `variance` of `getAverageTime`: population variance (denominator `N`)
of the clamped times. -/
def timeVariance (results : List WordleResult) (playerId : String) : ℚ :=
  ((clampedTimes results playerId).map
    (fun value => (value - meanTime results playerId) ^ 2)).sum /
    ((clampedTimes results playerId).length : ℚ)

/-! ### getPlayersPassed (`statistics.ts` lines 111–134)

Leaderboard objects are embedded as association lists (`JsBoard`); the
`board[p] ?? 0` lookup is `lbGet`.  The function's double loop over
`players = keys(old) ∪ keys(new)` pushes `other` onto `passed[player]` exactly
when the old scores are `≤`-ordered and the new scores strictly reversed, so
the returned record is embedded as the finite set of such (player, other)
pairs. -/

/-- A JS leaderboard object: an association list from player id to score. -/
abbrev JsBoard := List (String × ℚ)

/-- The key set of a leaderboard object. -/
def lbKeys (b : JsBoard) : Finset String := (b.map Prod.fst).toFinset

/-- The lookup `board[p] ?? 0`. -/
def lbGet (b : JsBoard) (p : String) : ℚ := (b.lookup p).getD 0

/-- The `players` set of `getPlayersPassed`: keys of either board. -/
def passPool (oldBoard newBoard : JsBoard) : Finset String :=
  lbKeys oldBoard ∪ lbKeys newBoard

/-- `getPlayersPassed` from `statistics.ts`, as the set of pairs
`(player, other)` such that `other` ends up in `passed[player]`. -/
def getPlayersPassed (oldBoard newBoard : JsBoard) : Finset (String × String) :=
  ((passPool oldBoard newBoard) ×ˢ (passPool oldBoard newBoard)).filter
    (fun pq => pq.1 ≠ pq.2 ∧
      lbGet oldBoard pq.1 ≤ lbGet oldBoard pq.2 ∧
      lbGet newBoard pq.2 < lbGet newBoard pq.1)

/-! ### getWordleDay and clampWordleDay (`parser.ts`) -/

/-- `FIRST_WORDLE_DATE_UTC = Date.UTC(2021, 5, 20)`, i.e. June 20 2021 UTC
midnight in epoch milliseconds: 2021-01-01 is 1609459200 s and June 20 is its
170th following day, so `1609459200000 + 170 * 86400000`. -/
def FIRST_WORDLE_DATE_UTC : ℤ := 1624147200000

/-- `getWordleDay` from `parser.ts`: whole days elapsed since the epoch
(`Math.floor` of the millisecond difference over a day) plus one.  The
reference date is its epoch-millisecond timestamp. -/
def getWordleDay (referenceMs : ℤ) : ℤ :=
  (referenceMs - FIRST_WORDLE_DATE_UTC).fdiv (1000 * 60 * 60 * 24) + 1

/-- `clampWordleDay` from `parser.ts`: accept a puzzle index iff it is within
`tolerance` (default 1) of today's computed index. -/
def clampWordleDay (wordleDay : ℤ) (tolerance : ℤ := 1) (referenceMs : ℤ) : Bool :=
  decide (|wordleDay - getWordleDay referenceMs| ≤ tolerance)

/-! ### parseWordleResult and isValidResult (`parser.ts`)

The share-text pattern
`^[\s\S]*Wordle[\s]+(\d+)[\s]+(X|\d)\/6(\*?)([\s\S]*)` with the `i` flag is
embedded character by character.  The greedy `[\s\S]*` head means the core
pattern is matched at the last possible position (`findWordleMatch` prefers
later start positions).  Inside the core, each greedy `+` repetition can be
taken maximally: shortening a `[\s]+` run leaves a whitespace character where
`\d` or `(X|\d)` is required, and shortening the `(\d+)` run leaves a digit
where `[\s]+` is required, so backtracking never helps and maximal munch is
exact.  The `i` flag makes the group `(X|\d)` also match a lowercase `x`, in
which case the JS code computes `Number.parseInt('x') = NaN`; that `NaN` is
modelled as `none : Option ℤ`. -/

/-- The JavaScript `\s` class, restricted to the characters that can occur in
share texts (ASCII whitespace plus the no-break space). -/
def isJsSpace (c : Char) : Bool :=
  c = ' ' || c = '\t' || c = '\n' || c = '\r' || c = '\x0b' || c = '\x0c' || c = '\u00A0'

/-- The JavaScript `\d` class: the ASCII digits. -/
def isDigitChar (c : Char) : Bool := '0' ≤ c && c ≤ '9'

/-- Numeric value of an ASCII digit. -/
def digitVal (c : Char) : ℕ := c.toNat - '0'.toNat

/-- `Number.parseInt` on a nonempty all-digit string (exact, as the puzzle
numbers in scope are far below the precision limit of JS numbers). -/
def parseDigits (cs : List Char) : ℕ :=
  cs.foldl (fun acc c => acc * 10 + digitVal c) 0

/-- A character the group `(X|\d)` matches under the `i` flag. -/
def isGuessChar (c : Char) : Bool := c = 'X' || c = 'x' || isDigitChar c

/-- The data captured by the four groups of the share-text pattern. -/
structure WordleMatch where
  dayDigits : List Char
  guessChar : Char
  hardStar : Bool
  gridChars : List Char
deriving DecidableEq, Repr

/-- Match the core of the pattern —
`Wordle[\s]+(\d+)[\s]+(X|\d)\/6(\*?)([\s\S]*)` — at the head of `s`
(case-insensitively). -/
def matchCoreAt (s : List Char) : Option WordleMatch :=
  match s with
  | c1 :: c2 :: c3 :: c4 :: c5 :: c6 :: rest =>
    if c1.toLower = 'w' && c2.toLower = 'o' && c3.toLower = 'r' &&
        c4.toLower = 'd' && c5.toLower = 'l' && c6.toLower = 'e' then
      let ws1 := rest.takeWhile isJsSpace
      let afterWs1 := rest.dropWhile isJsSpace
      if ws1.isEmpty then none
      else
        let digits := afterWs1.takeWhile isDigitChar
        let afterDigits := afterWs1.dropWhile isDigitChar
        if digits.isEmpty then none
        else
          let ws2 := afterDigits.takeWhile isJsSpace
          let afterWs2 := afterDigits.dropWhile isJsSpace
          if ws2.isEmpty then none
          else
            match afterWs2 with
            | g :: slash :: six :: rest2 =>
              if isGuessChar g && slash = '/' && six = '6' then
                match rest2 with
                | '*' :: rest3 => some ⟨digits, g, true, rest3⟩
                | _ => some ⟨digits, g, false, rest2⟩
              else none
            | _ => none
    else none
  | _ => none

/-- Match the whole pattern against `s`: thanks to the greedy `[\s\S]*` head
the core is matched at the last position where it succeeds. -/
def findWordleMatch : List Char → Option WordleMatch
  | [] => none
  | c :: rest =>
    match findWordleMatch rest with
    | some m => some m
    | none => matchCoreAt (c :: rest)

/-- `match[1] === 'X' ? -1 : Number.parseInt(match[2], 10)` for the one-char
guess group: `'X'` gives the failure sentinel, a digit its value, and a
lowercase `'x'` gives `NaN` (modelled as `none`). -/
def charGuessValue (c : Char) : Option ℤ :=
  if c = 'X' then some (-1)
  else if isDigitChar c then some (digitVal c : ℤ)
  else none

/-- JS `String.prototype.trim` on a character list. -/
def jsTrim (cs : List Char) : List Char :=
  ((cs.dropWhile isJsSpace).reverse.dropWhile isJsSpace).reverse

/-- JS `String.prototype.split('\n')` on a character list
(`''.split('\n')` is `['']`, matching the `[[]]` base case). -/
def splitOnNl : List Char → List (List Char)
  | [] => [[]]
  | c :: rest =>
    match splitOnNl rest with
    | [] => [[c]]
    | line :: more =>
      if c = '\n' then [] :: line :: more
      else (c :: line) :: more

/-- A line that `line.trim().length > 0` filters out. -/
def isBlankLine (cs : List Char) : Bool := (jsTrim cs).isEmpty

/-- The parsed result record built by `parseWordleResult` before validation.
`guesses : Option ℤ` embeds the JS number, which can be `NaN` (= `none`). -/
structure ParsedWordle where
  wordleDay : ℕ
  guesses : Option ℤ
  hardMode : Bool
  grid : List Char
  playerId : String
  secondsSinceMidnight : ℤ
deriving DecidableEq, Repr

/-- `isValidResult` from `parser.ts`.  The JS comparisons
`result.guesses < -1 || result.guesses > 6` are false on `NaN`;
`rows.length !== expectedRows` is true on `NaN` (so a `NaN` guess count is
always rejected by the row-count check). -/
def isValidResult (r : ParsedWordle) : Bool :=
  if (match r.guesses with
      | some g => decide (g < -1) || decide (g > 6)
      | none => false) then false
  else
    let expectedRows : Option ℤ := if r.guesses = some (-1) then some 6 else r.guesses
    let rows := (splitOnNl r.grid).filter (fun l => !(isBlankLine l))
    if expectedRows = some (rows.length : ℤ) then
      if r.playerId = "" then false else true
    else false

/-- `parseWordleResult` from `parser.ts`: strip commas, match the pattern
(`null` on no match), build the record, and return it only if
`isValidResult` accepts it.  The `Number.isNaN(wordleDay)` check of the JS
code never fires because group 1 is a nonempty digit string.  The record's
`secondsSinceMidnight` is the value `secondsSinceMidnight(submittedAt)`
computes from the submission timestamp, passed here directly. -/
def parseWordleResult (message : String) (playerId : String)
    (secondsSinceMidnight : ℤ) : Option ParsedWordle :=
  let sanitized := message.data.filter (fun c => c ≠ ',')
  match findWordleMatch sanitized with
  | none => none
  | some m =>
    let result : ParsedWordle :=
      { wordleDay := parseDigits m.dayDigits
        guesses := charGuessValue m.guessChar
        hardMode := m.hardStar
        grid := jsTrim m.gridChars
        playerId := playerId
        secondsSinceMidnight := secondsSinceMidnight }
    if isValidResult result then some result else none

/-! ## Validation bounds of the parser -/

lemma isValidResult_guesses (r : ParsedWordle) (h : isValidResult r = true) :
    ∃ n : ℤ, r.guesses = some n ∧ -1 ≤ n ∧ n ≤ 6 := by
  rcases hg : r.guesses with _ | n
  · rw [isValidResult, hg] at h
    simp at h
  · rw [isValidResult, hg] at h
    dsimp only at h
    split at h
    · exact absurd h (by simp)
    · rename_i hcond
      simp only [Bool.or_eq_true, decide_eq_true_eq, not_or, not_lt] at hcond
      exact ⟨n, rfl, by omega, by omega⟩

lemma parseWordleResult_valid {message playerId : String} {secs : ℤ}
    {r : ParsedWordle} (h : parseWordleResult message playerId secs = some r) :
    isValidResult r = true := by
  rw [parseWordleResult] at h
  split at h
  · exact absurd h (by simp)
  · dsimp only at h
    split at h
    · rename_i hvalid
      exact (Option.some.inj h) ▸ hvalid
    · exact absurd h (by simp)

/-! ## The loop invariant of the `bestPerDay` accumulation in `getScores` -/

/-- Correctness of a `BestMap` accumulator for the processed prefix `rs` at
day `d`: a missing entry means no solved submission, and an entry
`(g, ws)` means `g` is an attained lower bound of the solved guess counts and
`ws` is exactly the set of players attaining it. -/
def GoodAt (rs : List WordleResult) (m : BestMap) (d : ℤ) : Prop :=
  (m d = none → ∀ r ∈ rs, ¬ SolvedFor d r) ∧
  ∀ g ws, m d = some (g, ws) →
    (∃ r ∈ rs, SolvedFor d r ∧ r.guesses = g) ∧
    (∀ r ∈ rs, SolvedFor d r → g ≤ r.guesses) ∧
    (∀ p : String, p ∈ ws ↔ ∃ r ∈ rs, SolvedFor d r ∧ r.guesses = g ∧ r.playerId = p)

/-- Correctness of an accumulator for `rs` at every day. -/
def GoodAcc (rs : List WordleResult) (m : BestMap) : Prop := ∀ d : ℤ, GoodAt rs m d

lemma goodAt_extend_unsolved {rs : List WordleResult} {m : BestMap} {d : ℤ}
    (r : WordleResult) (hm : GoodAt rs m d) (hns : ¬ SolvedFor d r)
    {m' : BestMap} (heq : m' d = m d) : GoodAt (rs ++ [r]) m' d := by
  obtain ⟨h0, h1⟩ := hm
  constructor
  · intro hnone r' hr'
    rcases List.mem_append.mp hr' with hin | hin
    · exact h0 (heq.symm.trans hnone) r' hin
    · have hrr : r' = r := by simpa using hin
      exact hrr ▸ hns
  · intro g ws hsome
    obtain ⟨hach, hmin, hws⟩ := h1 g ws (heq.symm.trans hsome)
    refine ⟨?_, ?_, ?_⟩
    · obtain ⟨r', hr', hrest⟩ := hach
      exact ⟨r', List.mem_append.mpr (Or.inl hr'), hrest⟩
    · intro r' hr' hs
      rcases List.mem_append.mp hr' with hin | hin
      · exact hmin r' hin hs
      · have hrr : r' = r := by simpa using hin
        exact absurd (hrr ▸ hs) hns
    · intro p
      rw [hws p]
      constructor
      · rintro ⟨r', hr', hrest⟩
        exact ⟨r', List.mem_append.mpr (Or.inl hr'), hrest⟩
      · rintro ⟨r', hr', hs, hrest⟩
        rcases List.mem_append.mp hr' with hin | hin
        · exact ⟨r', hin, hs, hrest⟩
        · have hrr : r' = r := by simpa using hin
          exact absurd (hrr ▸ hs) hns

lemma goodAcc_step {rs : List WordleResult} {m : BestMap} (r : WordleResult)
    (h : GoodAcc rs m) : GoodAcc (rs ++ [r]) (bestStep m r) := by
  intro d
  by_cases hg : r.guesses = -1
  · exact goodAt_extend_unsolved r (h d) (fun hs => hs.2 hg) (by simp [bestStep, hg])
  · by_cases hd : d = r.wordleDay
    · subst hd
      obtain ⟨h0, h1⟩ := h r.wordleDay
      rcases hm : m r.wordleDay with _ | ⟨g0, ws0⟩
      · -- first solved submission seen for this day
        have hv : bestStep m r r.wordleDay = some (r.guesses, {r.playerId}) := by
          simp [bestStep, hg, hm]
        constructor
        · intro hnone
          rw [hv] at hnone
          exact absurd hnone (by simp)
        · intro g ws hsome
          rw [hv] at hsome
          simp only [Option.some.injEq, Prod.mk.injEq] at hsome
          obtain ⟨rfl, rfl⟩ := hsome
          refine ⟨⟨r, List.mem_append.mpr (Or.inr (by simp)), ⟨rfl, hg⟩, rfl⟩, ?_, ?_⟩
          · intro r' hr' hs
            rcases List.mem_append.mp hr' with hin | hin
            · exact absurd hs (h0 hm r' hin)
            · have hrr : r' = r := by simpa using hin
              exact hrr ▸ le_refl _
          · intro p
            simp only [Finset.mem_singleton]
            constructor
            · rintro rfl
              exact ⟨r, List.mem_append.mpr (Or.inr (by simp)), ⟨rfl, hg⟩, rfl, rfl⟩
            · rintro ⟨r', hr', hs, hgs, hpid⟩
              rcases List.mem_append.mp hr' with hin | hin
              · exact absurd hs (h0 hm r' hin)
              · have hrr : r' = r := by simpa using hin
                rw [← hpid, hrr]
      · obtain ⟨hach, hmin, hws⟩ := h1 g0 ws0 hm
        rcases lt_trichotomy r.guesses g0 with hlt | heq | hgt
        · -- strictly better guess count: replace the entry
          have hv : bestStep m r r.wordleDay = some (r.guesses, {r.playerId}) := by
            simp [bestStep, hg, hm, hlt]
          constructor
          · intro hnone
            rw [hv] at hnone
            exact absurd hnone (by simp)
          · intro g ws hsome
            rw [hv] at hsome
            simp only [Option.some.injEq, Prod.mk.injEq] at hsome
            obtain ⟨rfl, rfl⟩ := hsome
            refine ⟨⟨r, List.mem_append.mpr (Or.inr (by simp)), ⟨rfl, hg⟩, rfl⟩, ?_, ?_⟩
            · intro r' hr' hs
              rcases List.mem_append.mp hr' with hin | hin
              · exact le_trans (le_of_lt hlt) (hmin r' hin hs)
              · have hrr : r' = r := by simpa using hin
                exact hrr ▸ le_refl _
            · intro p
              simp only [Finset.mem_singleton]
              constructor
              · rintro rfl
                exact ⟨r, List.mem_append.mpr (Or.inr (by simp)), ⟨rfl, hg⟩, rfl, rfl⟩
              · rintro ⟨r', hr', hs, hgs, hpid⟩
                rcases List.mem_append.mp hr' with hin | hin
                · exact absurd (hgs ▸ hmin r' hin hs) (not_le.mpr hlt)
                · have hrr : r' = r := by simpa using hin
                  rw [← hpid, hrr]
        · -- tie with the current best: join the winner set
          subst heq
          have hv : bestStep m r r.wordleDay = some (r.guesses, insert r.playerId ws0) := by
            simp [bestStep, hg, hm]
          constructor
          · intro hnone
            rw [hv] at hnone
            exact absurd hnone (by simp)
          · intro g ws hsome
            rw [hv] at hsome
            simp only [Option.some.injEq, Prod.mk.injEq] at hsome
            obtain ⟨rfl, rfl⟩ := hsome
            obtain ⟨r'', hr'', hrest''⟩ := hach
            refine ⟨⟨r'', List.mem_append.mpr (Or.inl hr''), hrest''⟩, ?_, ?_⟩
            · intro r' hr' hs
              rcases List.mem_append.mp hr' with hin | hin
              · exact hmin r' hin hs
              · have hrr : r' = r := by simpa using hin
                rw [hrr]
            · intro p
              simp only [Finset.mem_insert]
              constructor
              · rintro (rfl | hp)
                · exact ⟨r, List.mem_append.mpr (Or.inr (by simp)), ⟨rfl, hg⟩, rfl, rfl⟩
                · obtain ⟨r', hr', hrest⟩ := (hws p).mp hp
                  exact ⟨r', List.mem_append.mpr (Or.inl hr'), hrest⟩
              · rintro ⟨r', hr', hs, hgs, hpid⟩
                rcases List.mem_append.mp hr' with hin | hin
                · exact Or.inr ((hws p).mpr ⟨r', hin, hs, hgs, hpid⟩)
                · have hrr : r' = r := by simpa using hin
                  exact Or.inl (by rw [← hpid, hrr])
        · -- worse guess count: entry unchanged
          have hv : bestStep m r r.wordleDay = some (g0, ws0) := by
            have h1' : ¬ r.guesses < g0 := not_lt.mpr (le_of_lt hgt)
            have h2' : ¬ r.guesses = g0 := ne_of_gt hgt
            simp [bestStep, hg, hm, h1', h2']
          constructor
          · intro hnone
            rw [hv] at hnone
            exact absurd hnone (by simp)
          · intro g ws hsome
            rw [hv] at hsome
            simp only [Option.some.injEq, Prod.mk.injEq] at hsome
            obtain ⟨rfl, rfl⟩ := hsome
            obtain ⟨r'', hr'', hrest''⟩ := hach
            refine ⟨⟨r'', List.mem_append.mpr (Or.inl hr''), hrest''⟩, ?_, ?_⟩
            · intro r' hr' hs
              rcases List.mem_append.mp hr' with hin | hin
              · exact hmin r' hin hs
              · have hrr : r' = r := by simpa using hin
                exact hrr ▸ le_of_lt hgt
            · intro p
              rw [hws p]
              constructor
              · rintro ⟨r', hr', hrest⟩
                exact ⟨r', List.mem_append.mpr (Or.inl hr'), hrest⟩
              · rintro ⟨r', hr', hs, hgs, hpid⟩
                rcases List.mem_append.mp hr' with hin | hin
                · exact ⟨r', hin, hs, hgs, hpid⟩
                · have hrr : r' = r := by simpa using hin
                  exact absurd (hrr ▸ hgs) (ne_of_gt (hrr ▸ hgt))
    · refine goodAt_extend_unsolved r (h d) (fun hs => hd hs.1.symm) ?_
      simp [bestStep, hg, hd]

lemma goodAcc_foldl : ∀ (rs pre : List WordleResult) (m : BestMap),
    GoodAcc pre m → GoodAcc (pre ++ rs) (rs.foldl bestStep m)
  | [], pre, m, h => by simpa using h
  | r :: rs, pre, m, h => by
    have h2 := goodAcc_foldl rs (pre ++ [r]) (bestStep m r) (goodAcc_step r h)
    simpa using h2

lemma goodAcc_nil : GoodAcc [] (fun _ => none) := by
  intro d
  constructor
  · intro _ r hr
    simp at hr
  · intro g ws hsome
    simp at hsome

lemma goodAcc_bestPerDay (rs : List WordleResult) : GoodAcc rs (bestPerDay rs) := by
  have h := goodAcc_foldl rs [] (fun _ => none) goodAcc_nil
  simpa [bestPerDay] using h

lemma bestPerDay_none_iff (rs : List WordleResult) (d : ℤ) :
    bestPerDay rs d = none ↔ ∀ r ∈ rs, ¬ SolvedFor d r := by
  constructor
  · exact (goodAcc_bestPerDay rs d).1
  · intro hall
    rcases hb : bestPerDay rs d with _ | ⟨g, ws⟩
    · rfl
    · obtain ⟨⟨r', hr', hs, _⟩, _, _⟩ := (goodAcc_bestPerDay rs d).2 g ws hb
      exact absurd hs (hall r' hr')

lemma winners_mem {rs : List WordleResult} {d g : ℤ} {ws : Finset String}
    (hb : bestPerDay rs d = some (g, ws)) {p : String} (hp : p ∈ ws) :
    ∃ r ∈ rs, SolvedFor d r ∧ r.guesses = g ∧ r.playerId = p :=
  ((goodAcc_bestPerDay rs d).2 g ws hb).2.2 p |>.mp hp

lemma winners_nonempty {rs : List WordleResult} {d g : ℤ} {ws : Finset String}
    (hb : bestPerDay rs d = some (g, ws)) : ws.Nonempty := by
  obtain ⟨⟨r', _, hs, hgs⟩, _, hws⟩ := (goodAcc_bestPerDay rs d).2 g ws hb
  exact ⟨r'.playerId, (hws r'.playerId).mpr ⟨r', by assumption, hs, hgs, rfl⟩⟩

lemma winners_subset_participants {rs : List WordleResult} {d g : ℤ}
    {ws : Finset String} (hb : bestPerDay rs d = some (g, ws)) :
    ws ⊆ getParticipants rs := by
  intro p hp
  obtain ⟨r', hr', _, _, hpid⟩ := winners_mem hb hp
  simp only [getParticipants, List.mem_toFinset, List.mem_map]
  exact ⟨r', hr', hpid⟩

lemma foldl_bestStep_filter : ∀ (rs : List WordleResult) (m : BestMap),
    (rs.filter (fun r => r.guesses != -1)).foldl bestStep m = rs.foldl bestStep m
  | [], _ => rfl
  | r :: rs, m => by
    by_cases hgu : r.guesses = -1
    · have hstep : bestStep m r = m := by simp [bestStep, hgu]
      have hp : (r.guesses != -1) = false := by simp [hgu]
      rw [List.filter_cons, hp]
      simp only [Bool.false_eq_true, if_false, List.foldl_cons, hstep]
      exact foldl_bestStep_filter rs m
    · have hp : (r.guesses != -1) = true := by simpa using hgu
      rw [List.filter_cons, hp]
      simp only [if_true, List.foldl_cons]
      exact foldl_bestStep_filter rs (bestStep m r)

lemma dayScore_nonneg (rs : List WordleResult) (d : ℤ) (p : String) :
    0 ≤ dayScore rs d p := by
  unfold dayScore
  rcases bestPerDay rs d with _ | ⟨g, ws⟩
  · exact le_refl 0
  · dsimp only
    split
    · positivity
    · exact le_refl 0

lemma dayTotal_of_some {rs : List WordleResult} {d g : ℤ} {ws : Finset String}
    (hb : bestPerDay rs d = some (g, ws)) : dayTotal rs d = 1 := by
  have hsub := winners_subset_participants hb
  have hne := winners_nonempty hb
  have hcard : (ws.card : ℚ) ≠ 0 := by
    have h1 : 0 < ws.card := Finset.card_pos.mpr hne
    exact_mod_cast h1.ne'
  calc dayTotal rs d
      = ∑ p ∈ getParticipants rs, (if p ∈ ws then 1 / (ws.card : ℚ) else 0) := by
        apply Finset.sum_congr rfl
        intro p _
        simp [dayScore, hb]
    _ = ∑ p ∈ getParticipants rs ∩ ws, 1 / (ws.card : ℚ) := Finset.sum_ite_mem _ _ _
    _ = ∑ _p ∈ ws, 1 / (ws.card : ℚ) := by rw [Finset.inter_eq_right.mpr hsub]
    _ = ws.card • (1 / (ws.card : ℚ)) := Finset.sum_const _
    _ = 1 := by
        rw [nsmul_eq_mul, mul_one_div, div_self hcard]

lemma dayTotal_of_none {rs : List WordleResult} {d : ℤ}
    (hb : bestPerDay rs d = none) : dayTotal rs d = 0 := by
  unfold dayTotal
  apply Finset.sum_eq_zero
  intro p _
  simp [dayScore, hb]

/-! ## The accumulation loops of `getAverages` -/

lemma avgCounts_foldl : ∀ (rs : List WordleResult) (acc : String → ℕ) (p : String),
    (rs.foldl avgCountsStep acc) p = acc p + (rs.filter (fun r => r.playerId == p)).length
  | [], acc, p => by simp
  | r :: rs, acc, p => by
    rw [List.foldl_cons, avgCounts_foldl rs (avgCountsStep acc r) p, List.filter_cons]
    by_cases hp : p = r.playerId
    · have hb : (r.playerId == p) = true := by simp [hp]
      simp only [hb, if_true, List.length_cons, avgCountsStep, if_pos hp]
      omega
    · have hb : (r.playerId == p) = false := by
        simp only [beq_eq_false_iff_ne, ne_eq]
        exact fun h => hp h.symm
      simp only [hb, Bool.false_eq_true, if_false, avgCountsStep, if_neg hp]

lemma avgTotals_foldl : ∀ (rs : List WordleResult) (acc : String → ℚ) (p : String),
    (rs.foldl avgTotalsStep acc) p =
      acc p + ((rs.filter (fun r => r.playerId == p)).map
        (fun r => (positiveGuesses r.guesses : ℚ))).sum
  | [], acc, p => by simp
  | r :: rs, acc, p => by
    rw [List.foldl_cons, avgTotals_foldl rs (avgTotalsStep acc r) p, List.filter_cons]
    by_cases hp : p = r.playerId
    · have hb : (r.playerId == p) = true := by simp [hp]
      simp only [hb, if_true, List.map_cons, List.sum_cons, avgTotalsStep, if_pos hp]
      ring
    · have hb : (r.playerId == p) = false := by
        simp only [beq_eq_false_iff_ne, ne_eq]
        exact fun h => hp h.symm
      simp only [hb, Bool.false_eq_true, if_false, avgTotalsStep, if_neg hp]

lemma avgCounts_eq (rs : List WordleResult) (p : String) :
    avgCounts rs p = (playerResults rs p).length := by
  rw [avgCounts, avgCounts_foldl, playerResults]
  omega

lemma avgTotals_eq (rs : List WordleResult) (p : String) :
    avgTotals rs p =
      ((playerResults rs p).map (fun r => (positiveGuesses r.guesses : ℚ))).sum := by
  rw [avgTotals, avgTotals_foldl, playerResults]
  ring

/-! ## Membership lemmas for `getDayLeaderboardsMulti` -/

lemma mem_guessGroup (rs : List WordleResult) (d g : ℤ) (p : String) :
    p ∈ guessGroup rs d g ↔
      ∃ r ∈ rs, r.wordleDay = d ∧ r.guesses = g ∧ r.guesses ≠ -1 ∧ r.playerId = p := by
  simp only [guessGroup, solvedForDay, List.mem_toFinset, List.mem_map, List.mem_filter,
    Bool.and_eq_true, beq_iff_eq, bne_iff_ne, ne_eq]
  constructor
  · rintro ⟨r, ⟨⟨hr, hd, hne⟩, hg⟩, hp⟩
    exact ⟨r, hr, hd, hg, hne, hp⟩
  · rintro ⟨r, hr, hd, hg, hne, hp⟩
    exact ⟨r, ⟨⟨hr, hd, hne⟩, hg⟩, hp⟩

lemma mem_dayGuessKeys (rs : List WordleResult) (d g : ℤ) :
    g ∈ dayGuessKeys rs d ↔
      ∃ r ∈ rs, r.wordleDay = d ∧ r.guesses = g ∧ r.guesses ≠ -1 := by
  simp only [dayGuessKeys, solvedForDay, List.mem_toFinset, List.mem_map, List.mem_filter,
    Bool.and_eq_true, beq_iff_eq, bne_iff_ne, ne_eq]
  constructor
  · rintro ⟨r, ⟨hr, hd, hne⟩, hg⟩
    exact ⟨r, hr, hd, hg, hne⟩
  · rintro ⟨r, hr, hd, hg, hne⟩
    exact ⟨r, ⟨hr, hd, hne⟩, hg⟩

lemma mem_getDayLeaderboardsMulti (rs : List WordleResult) (d g : ℤ)
    (ws : Finset String) :
    (g, ws) ∈ getDayLeaderboardsMulti rs d ↔
      g ∈ dayGuessKeys rs d ∧ ws = guessGroup rs d g := by
  simp only [getDayLeaderboardsMulti, List.mem_map, Finset.mem_sort, Prod.mk.injEq]
  constructor
  · rintro ⟨a, ha, rfl, rfl⟩
    exact ⟨ha, rfl⟩
  · rintro ⟨hg, rfl⟩
    exact ⟨g, hg, rfl, rfl⟩

/-! ## Theorems -/

/-- C1.  For every submission list and day `d`, the points `getScores` hands
out for `d` total exactly 1 when some submission for `d` is solved and 0 when
none is (hence never exceed 1); failure sentinels are never winners (winners
all come from solved submissions attaining the minimum solved guess count) and
removing them leaves the whole `bestPerDay` entry — in particular the minimum
— unchanged. -/
theorem getScores_day_total (rs : List WordleResult) (d : ℤ) :
    dayTotal rs d ≤ 1 ∧
    ((∃ r ∈ rs, SolvedFor d r) → dayTotal rs d = 1) ∧
    ((∀ r ∈ rs, ¬ SolvedFor d r) → dayTotal rs d = 0) ∧
    (∀ g ws p, bestPerDay rs d = some (g, ws) → p ∈ ws →
      ∃ r ∈ rs, SolvedFor d r ∧ r.guesses = g ∧ r.playerId = p) ∧
    (∀ g ws, bestPerDay rs d = some (g, ws) →
      ∀ r ∈ rs, SolvedFor d r → g ≤ r.guesses) ∧
    bestPerDay (rs.filter (fun r => r.guesses != -1)) d = bestPerDay rs d := by
  refine ⟨?_, ?_, ?_, ?_, ?_, ?_⟩
  · rcases hb : bestPerDay rs d with _ | ⟨g, ws⟩
    · exact le_of_eq (dayTotal_of_none hb) |>.trans (by norm_num)
    · exact le_of_eq (dayTotal_of_some hb)
  · rintro ⟨r, hr, hs⟩
    rcases hb : bestPerDay rs d with _ | ⟨g, ws⟩
    · exact absurd hs ((bestPerDay_none_iff rs d).mp hb r hr)
    · exact dayTotal_of_some hb
  · intro hall
    exact dayTotal_of_none ((bestPerDay_none_iff rs d).mpr hall)
  · intro g ws p hb hp
    exact winners_mem hb hp
  · intro g ws hb
    exact ((goodAcc_bestPerDay rs d).2 g ws hb).2.1
  · unfold bestPerDay
    rw [foldl_bestStep_filter]

/-- C10 (implicit).  Keys of the `getScores` leaderboard are players with at
least one solved submission and carry strictly positive scores; a player whose
submissions are all failure sentinels is absent from the `getScores` keys, yet
(having a submission) still gets an entry in the `getAverages` accumulation
(its count is positive). -/
theorem getScores_keys_positive (rs : List WordleResult) :
    (∀ p ∈ scoreKeys rs, ∃ r ∈ rs, r.playerId = p ∧ r.guesses ≠ -1) ∧
    (∀ p ∈ scoreKeys rs, 0 < getScores rs p) ∧
    (∀ p : String, (∀ r ∈ rs, r.playerId = p → r.guesses = -1) →
      (p ∉ scoreKeys rs ∧ ((∃ r ∈ rs, r.playerId = p) → 0 < avgCounts rs p))) := by
  have hmem : ∀ p ∈ scoreKeys rs, ∃ d g ws,
      bestPerDay rs d = some (g, ws) ∧ d ∈ scoreDays rs ∧ p ∈ ws := by
    intro p hp
    obtain ⟨d, hd, hpd⟩ := Finset.mem_biUnion.mp hp
    rcases hb : bestPerDay rs d with _ | ⟨g, ws⟩
    · rw [hb] at hpd
      simp at hpd
    · rw [hb] at hpd
      exact ⟨d, g, ws, hb, hd, hpd⟩
  have hsolved : ∀ p ∈ scoreKeys rs, ∃ r ∈ rs, r.playerId = p ∧ r.guesses ≠ -1 := by
    intro p hp
    obtain ⟨d, g, ws, hb, _, hpd⟩ := hmem p hp
    obtain ⟨r, hr, hs, _, hpid⟩ := winners_mem hb hpd
    exact ⟨r, hr, hpid, hs.2⟩
  refine ⟨hsolved, ?_, ?_⟩
  · intro p hp
    obtain ⟨d, g, ws, hb, hd, hpd⟩ := hmem p hp
    apply Finset.sum_pos'
    · intro d' _
      exact dayScore_nonneg rs d' p
    · refine ⟨d, hd, ?_⟩
      have hcard : (0 : ℚ) < ws.card := by
        exact_mod_cast Finset.card_pos.mpr ⟨p, hpd⟩
      simp only [dayScore, hb, hpd, if_true]
      positivity
  · intro p hall
    constructor
    · intro hp
      obtain ⟨r, hr, hpid, hne⟩ := hsolved p hp
      exact hne (hall r hr hpid)
    · rintro ⟨r, hr, hpid⟩
      rw [avgCounts, avgCounts_foldl]
      have hrf : r ∈ rs.filter (fun r => r.playerId == p) :=
        List.mem_filter.mpr ⟨hr, by simp [hpid]⟩
      have := List.length_pos_of_mem hrf
      omega

/-- C3 (counterexample to the claim as stated).  The message
`"Wordle 123 0/6"` (an all-blank grid) is returned as a submission whose
guesses value is 0: the validator only rejects guess counts below `-1` or
above `6`, so `0` passes, and the expected row count `0` matches the empty
grid. -/
theorem parseWordleResult_returns_zero :
    ∃ r : ParsedWordle, parseWordleResult "Wordle 123 0/6" "p" 0 = some r ∧
      r.guesses = some 0 := by
  refine ⟨⟨123, some 0, false, [], "p", 0⟩, ?_, rfl⟩
  decide

/-- C3 (amended).  Whenever `parseWordleResult` returns a submission, its
guesses field is either the failure sentinel `-1` (from an `X/6` token) or an
integer in `[0, 6]`; nothing outside `[-1, 6]` is ever returned (but `0` is
possible, from a `0/6` token with an all-blank grid). -/
theorem parseWordleResult_guesses_range (message playerId : String) (secs : ℤ)
    (r : ParsedWordle) (h : parseWordleResult message playerId secs = some r) :
    r.guesses = some (-1) ∨ ∃ n : ℤ, r.guesses = some n ∧ 0 ≤ n ∧ n ≤ 6 := by
  obtain ⟨n, hn, h1, h2⟩ := isValidResult_guesses r (parseWordleResult_valid h)
  rcases eq_or_lt_of_le h1 with heq | hlt
  · exact Or.inl (heq ▸ hn)
  · exact Or.inr ⟨n, hn, by omega, h2⟩

/-- C7.  With the default tolerance 1, `clampWordleDay` accepts a puzzle index
`w` exactly when `|w - T| ≤ 1` for `T = getWordleDay reference`, where `T` is
the whole days elapsed since the June 20 2021 UTC-midnight epoch plus one; in
particular `T`, `T-1`, `T+1` are accepted and `T-2`, `T+2` are rejected, and
the epoch instant itself computes to puzzle index 1. -/
theorem clampWordleDay_freshness (t w : ℤ) :
    (clampWordleDay w 1 t = true ↔ |w - getWordleDay t| ≤ 1) ∧
    getWordleDay t = (t - FIRST_WORDLE_DATE_UTC).fdiv 86400000 + 1 ∧
    getWordleDay FIRST_WORDLE_DATE_UTC = 1 ∧
    clampWordleDay (getWordleDay t) 1 t = true ∧
    clampWordleDay (getWordleDay t - 1) 1 t = true ∧
    clampWordleDay (getWordleDay t + 1) 1 t = true ∧
    clampWordleDay (getWordleDay t - 2) 1 t = false ∧
    clampWordleDay (getWordleDay t + 2) 1 t = false := by
  refine ⟨by simp [clampWordleDay], by norm_num [getWordleDay], by decide, ?_, ?_, ?_, ?_, ?_⟩ <;>
  · simp only [clampWordleDay, abs_le, decide_eq_true_eq, decide_eq_false_iff_not]
    omega

/-- C8.  `getWeeklyScores results start windowSize` equals `getScores` applied
to the submissions whose `wordleDay` lies in the inclusive window
`[start, start + windowSize - 1]`, and the window size defaults to 7. -/
theorem getWeeklyScores_eq_getScores_window (results : List WordleResult)
    (start windowSize : ℤ) (p : String) :
    getWeeklyScores results start windowSize p =
      getScores (results.filter
        (fun r => decide (start ≤ r.wordleDay ∧ r.wordleDay ≤ start + windowSize - 1))) p ∧
    getWeeklyScores results start 7 p =
      getScores (results.filter
        (fun r => decide (start ≤ r.wordleDay ∧ r.wordleDay ≤ start + 7 - 1))) p := by
  have key : ∀ w : ℤ, getWeeklyScores results start w p =
      getScores (results.filter
        (fun r => decide (start ≤ r.wordleDay ∧ r.wordleDay ≤ start + w - 1))) p := by
    intro w
    unfold getWeeklyScores
    have hf : results.filter
          (fun r => decide (r.wordleDay ≥ start) && decide (r.wordleDay ≤ start + w - 1)) =
        results.filter
          (fun r => decide (start ≤ r.wordleDay ∧ r.wordleDay ≤ start + w - 1)) := by
      apply List.filter_congr
      intro r _
      simp [ge_iff_le, Bool.decide_and]
    rw [hf]
  exact ⟨key windowSize, key 7⟩

/-- C4.  `getAverages` maps each player with at least one submission to the
arithmetic mean of `positiveGuesses` over that player's submissions (a failure
sentinel contributing the penalty value 6), rounded to two decimal places; in
particular submissions `[3, 4, -1]` yield `(3+4+6)/3` rounded, i.e. `4.33`. -/
theorem getAverages_mean (rs : List WordleResult) (p : String) :
    ((∃ r ∈ rs, r.playerId = p) →
      getAverages rs p =
        round2 (((playerResults rs p).map
            (fun r => (positiveGuesses r.guesses : ℚ))).sum /
          ((playerResults rs p).length : ℚ))) ∧
    getAverages
      [⟨1, 3, false, "", "alice", 0⟩, ⟨2, 4, false, "", "alice", 0⟩,
       ⟨3, -1, false, "", "alice", 0⟩] "alice" = 433 / 100 := by
  constructor
  · intro _
    rw [getAverages, avgCounts_eq, avgTotals_eq]
  · rw [getAverages, avgCounts_eq, avgTotals_eq]
    norm_num [playerResults, positiveGuesses, round2, round_eq, List.filter]

/-- C5.  `getDayLeaderboardsMulti` returns, for day `d`, exactly the players
with a solved submission for `d`, grouped by guess count with ties in a single
group, with no group for the failure sentinel, sorted ascending by guesses. -/
theorem getDayLeaderboardsMulti_spec (rs : List WordleResult) (d : ℤ) :
    (∀ g ws, (g, ws) ∈ getDayLeaderboardsMulti rs d →
      g ≠ -1 ∧ ws.Nonempty ∧
      ∀ p : String, p ∈ ws ↔
        ∃ r ∈ rs, r.wordleDay = d ∧ r.guesses = g ∧ r.guesses ≠ -1 ∧ r.playerId = p) ∧
    (∀ r ∈ rs, r.wordleDay = d → r.guesses ≠ -1 →
      (r.guesses, guessGroup rs d r.guesses) ∈ getDayLeaderboardsMulti rs d ∧
      r.playerId ∈ guessGroup rs d r.guesses) ∧
    List.Sorted (· < ·) ((getDayLeaderboardsMulti rs d).map Prod.fst) := by
  refine ⟨?_, ?_, ?_⟩
  · intro g ws hmem
    obtain ⟨hg, rfl⟩ := (mem_getDayLeaderboardsMulti rs d g ws).mp hmem
    obtain ⟨r, hr, hd, hgs, hne⟩ := (mem_dayGuessKeys rs d g).mp hg
    refine ⟨hgs ▸ hne, ?_, fun p => mem_guessGroup rs d g p⟩
    exact ⟨r.playerId, (mem_guessGroup rs d g r.playerId).mpr ⟨r, hr, hd, hgs, hne, rfl⟩⟩
  · intro r hr hd hne
    constructor
    · refine (mem_getDayLeaderboardsMulti rs d r.guesses _).mpr ⟨?_, rfl⟩
      exact (mem_dayGuessKeys rs d r.guesses).mpr ⟨r, hr, hd, rfl, hne⟩
    · exact (mem_guessGroup rs d r.guesses r.playerId).mpr ⟨r, hr, hd, rfl, hne, rfl⟩
  · have hmap : (getDayLeaderboardsMulti rs d).map Prod.fst =
        (dayGuessKeys rs d).sort (· ≤ ·) := by
      rw [getDayLeaderboardsMulti, List.map_map]
      simp [Function.comp_def]
    rw [hmap]
    exact Finset.sort_sorted_lt _

/-- C6.  `getAverageTime` returns `{avg: 0, std: 0}` for a player with no
submissions; otherwise it clamps each submission time to at most 86399 and
returns the arithmetic mean of the clamped times as `avg` and their population
standard deviation (the nonnegative square root of the variance with
denominator `N`) as `std`; a single submission yields
`{avg: the clamped value, std: 0}`. -/
theorem getAverageTime_spec (rs : List WordleResult) (pid : String) :
    (playerResults rs pid = [] → getAverageTime rs pid = ⟨0, 0⟩) ∧
    (∀ r : WordleResult, playerResults rs pid = [r] →
      getAverageTime rs pid = ⟨clampSeconds r.secondsSinceMidnight, 0⟩) ∧
    (playerResults rs pid ≠ [] →
      (getAverageTime rs pid).avg = meanTime rs pid ∧
      0 ≤ (getAverageTime rs pid).std ∧
      (getAverageTime rs pid).std ^ 2 = ((timeVariance rs pid : ℚ) : ℝ)) ∧
    meanTime rs pid =
      ((playerResults rs pid).map (fun r => clampSeconds r.secondsSinceMidnight)).sum /
        ((playerResults rs pid).length : ℚ) ∧
    timeVariance rs pid =
      (((playerResults rs pid).map (fun r => clampSeconds r.secondsSinceMidnight)).map
          (fun v => (v - meanTime rs pid) ^ 2)).sum /
        ((playerResults rs pid).length : ℚ) ∧
    (∀ x : ℤ, clampSeconds x ≤ 86399 ∧ (x ≤ 86399 → clampSeconds x = x)) := by
  have hunfold : ∀ h : (playerResults rs pid).length ≠ 0,
      getAverageTime rs pid =
        ⟨meanTime rs pid, Real.sqrt ((timeVariance rs pid : ℚ) : ℝ)⟩ := by
    intro h
    simp only [getAverageTime, meanTime, timeVariance, clampedTimes]
    rw [if_neg h]
  refine ⟨?_, ?_, ?_, ?_, ?_, ?_⟩
  · intro h
    rw [getAverageTime, h]
    rfl
  · intro r h
    have h1 : (playerResults rs pid).length ≠ 0 := by
      rw [h]
      simp
    rw [hunfold h1]
    have hm : meanTime rs pid = clampSeconds r.secondsSinceMidnight := by
      simp [meanTime, clampedTimes, h]
    have hv : timeVariance rs pid = 0 := by
      simp [timeVariance, clampedTimes, h, hm]
    rw [hm, hv]
    simp
  · intro hne
    have h1 : (playerResults rs pid).length ≠ 0 := by
      simpa [List.length_eq_zero] using hne
    rw [hunfold h1]
    refine ⟨rfl, Real.sqrt_nonneg _, ?_⟩
    have hvar : (0 : ℚ) ≤ timeVariance rs pid := by
      unfold timeVariance
      apply div_nonneg
      · apply List.sum_nonneg
        intro x hx
        obtain ⟨v, _, rfl⟩ := List.mem_map.mp hx
        positivity
      · positivity
    exact Real.sq_sqrt (by exact_mod_cast hvar)
  · rw [meanTime, clampedTimes, List.length_map]
  · rw [timeVariance, clampedTimes, List.length_map]
  · intro x
    have h2 : ((SECONDS_IN_DAY : ℚ) - 1) = 86399 := by norm_num [SECONDS_IN_DAY]
    constructor
    · have h1 : clampSeconds x ≤ (SECONDS_IN_DAY : ℚ) - 1 := min_le_right _ _
      rw [h2] at h1
      exact h1
    · intro hx
      rw [clampSeconds]
      apply min_eq_left
      rw [h2]
      exact_mod_cast hx

/-- C2.  For players `p ≠ q` of the two boards, `getPlayersPassed` reports `q`
in `p`'s passed-list exactly when `before[p] ≤ before[q]` and
`after[p] > after[q]` with missing entries read as 0; in particular with
before `{A:2, B:3}` and after `{A:4, B:3}` the result lists B under A, and
with before `{A:5, B:3}` no pass of A over B is reported whatever the after
board is. -/
theorem getPlayersPassed_spec :
    (∀ oldBoard newBoard : JsBoard, ∀ p q : String,
      p ∈ passPool oldBoard newBoard → q ∈ passPool oldBoard newBoard → p ≠ q →
      ((p, q) ∈ getPlayersPassed oldBoard newBoard ↔
        (lbGet oldBoard p ≤ lbGet oldBoard q ∧ lbGet newBoard q < lbGet newBoard p))) ∧
    ("A", "B") ∈ getPlayersPassed [("A", 2), ("B", 3)] [("A", 4), ("B", 3)] ∧
    (∀ newBoard : JsBoard, ("A", "B") ∉ getPlayersPassed [("A", 5), ("B", 3)] newBoard) := by
  refine ⟨?_, by decide, ?_⟩
  · intro oldBoard newBoard p q hp hq hne
    simp only [getPlayersPassed, Finset.mem_filter, Finset.mem_product, hp, hq, hne,
      and_true, true_and, ne_eq, not_false_eq_true]
  · intro newBoard hmem
    have h := (Finset.mem_filter.mp hmem).2
    have h53 : ¬ (lbGet [("A", 5), ("B", 3)] "A" ≤ lbGet [("A", 5), ("B", 3)] "B") := by
      decide
    exact h53 h.2.1

/-- C9 (implicit).  `getPlayersPassed` never reports a mutual pass: if `q` is
in `p`'s passed-list then `p` is not in `q`'s, since the former needs
`after[p] > after[q]` and the latter `after[q] > after[p]`. -/
theorem getPlayersPassed_no_mutual (oldBoard newBoard : JsBoard) (p q : String)
    (h : (p, q) ∈ getPlayersPassed oldBoard newBoard) :
    (q, p) ∉ getPlayersPassed oldBoard newBoard := by
  intro h'
  have h1 := (Finset.mem_filter.mp h).2.2.2
  have h2 := (Finset.mem_filter.mp h').2.2.2
  exact absurd (h1.trans h2) (lt_irrefl _)

/-! ## Concrete witnesses -/

/-- Witness for C1: with two tied solvers on day 5 and only a failure on day
6, the day-5 total is 1 and the day-6 total is 0. -/
theorem getScores_day_total_witness :
    dayTotal [(⟨5, 3, false, "", "A", 0⟩ : WordleResult), ⟨5, 3, false, "", "B", 0⟩,
        ⟨6, -1, false, "", "C", 0⟩] 5 = 1 ∧
    dayTotal [(⟨5, 3, false, "", "A", 0⟩ : WordleResult), ⟨5, 3, false, "", "B", 0⟩,
        ⟨6, -1, false, "", "C", 0⟩] 6 = 0 :=
  ⟨(getScores_day_total _ 5).2.1 ⟨⟨5, 3, false, "", "A", 0⟩, by decide, by decide⟩,
   (getScores_day_total _ 6).2.2.1 (by decide)⟩

/-- Witness for C2: on the example boards, B is reported under A. -/
theorem getPlayersPassed_spec_witness :
    ("A", "B") ∈ getPlayersPassed [("A", 2), ("B", 3)] [("A", 4), ("B", 3)] :=
  (getPlayersPassed_spec.1 [("A", 2), ("B", 3)] [("A", 4), ("B", 3)] "A" "B"
    (by decide) (by decide) (by decide)).mpr (by decide)

/-- Witness for the amended C3: a concrete valid share text parses to a
submission whose guesses value satisfies the amended range. -/
theorem parseWordleResult_guesses_range_witness :
    (⟨1599, some 4, false,
        ['A', 'A', 'A', 'A', 'A', '\n', 'B', 'B', 'B', 'B', 'B', '\n',
         'C', 'C', 'C', 'C', 'C', '\n', 'D', 'D', 'D', 'D', 'D'],
        "p", 0⟩ : ParsedWordle).guesses = some (-1) ∨
      ∃ n : ℤ, (⟨1599, some 4, false,
        ['A', 'A', 'A', 'A', 'A', '\n', 'B', 'B', 'B', 'B', 'B', '\n',
         'C', 'C', 'C', 'C', 'C', '\n', 'D', 'D', 'D', 'D', 'D'],
        "p", 0⟩ : ParsedWordle).guesses = some n ∧ 0 ≤ n ∧ n ≤ 6 :=
  parseWordleResult_guesses_range "Wordle 1599 4/6\nAAAAA\nBBBBB\nCCCCC\nDDDDD" "p" 0 _
    (by decide)

/-- Witness for C4: the mean formula instantiated on the `[3, 4, -1]` player. -/
theorem getAverages_mean_witness :
    getAverages [(⟨1, 3, false, "", "alice", 0⟩ : WordleResult),
        ⟨2, 4, false, "", "alice", 0⟩, ⟨3, -1, false, "", "alice", 0⟩] "alice" =
      round2 (((playerResults [(⟨1, 3, false, "", "alice", 0⟩ : WordleResult),
          ⟨2, 4, false, "", "alice", 0⟩, ⟨3, -1, false, "", "alice", 0⟩] "alice").map
            (fun r => (positiveGuesses r.guesses : ℚ))).sum /
        ((playerResults [(⟨1, 3, false, "", "alice", 0⟩ : WordleResult),
          ⟨2, 4, false, "", "alice", 0⟩, ⟨3, -1, false, "", "alice", 0⟩] "alice").length : ℚ)) :=
  (getAverages_mean _ "alice").1 (by decide)

/-- Witness for C5: a solver appears in the podium group of its guess count. -/
theorem getDayLeaderboardsMulti_spec_witness :
    ((3 : ℤ), guessGroup [(⟨5, 3, false, "", "A", 0⟩ : WordleResult)] 5 3) ∈
        getDayLeaderboardsMulti [(⟨5, 3, false, "", "A", 0⟩ : WordleResult)] 5 ∧
      "A" ∈ guessGroup [(⟨5, 3, false, "", "A", 0⟩ : WordleResult)] 5 3 :=
  (getDayLeaderboardsMulti_spec [(⟨5, 3, false, "", "A", 0⟩ : WordleResult)] 5).2.1
    ⟨5, 3, false, "", "A", 0⟩ (by decide) (by decide) (by decide)

/-- Witness for C6: empty history gives `{avg: 0, std: 0}`; a single
submission gives its clamped time with zero deviation. -/
theorem getAverageTime_spec_witness :
    getAverageTime [] "p" = ⟨0, 0⟩ ∧
    getAverageTime [(⟨1, 3, false, "", "p", 100⟩ : WordleResult)] "p" =
      ⟨clampSeconds 100, 0⟩ :=
  ⟨(getAverageTime_spec [] "p").1 rfl,
   (getAverageTime_spec [(⟨1, 3, false, "", "p", 100⟩ : WordleResult)] "p").2.1
     ⟨1, 3, false, "", "p", 100⟩ (by decide)⟩

/-- Witness for C7: the freshness window evaluated one day after the epoch. -/
theorem clampWordleDay_freshness_witness :
    clampWordleDay (getWordleDay 86400000000) 1 86400000000 = true ∧
    clampWordleDay (getWordleDay 86400000000 + 2) 1 86400000000 = false :=
  ⟨(clampWordleDay_freshness 86400000000 0).2.2.2.1,
   (clampWordleDay_freshness 86400000000 0).2.2.2.2.2.2.2⟩

/-- Witness for C8: the window equation instantiated on a concrete list. -/
theorem getWeeklyScores_window_witness :
    getWeeklyScores [(⟨10, 3, false, "", "A", 0⟩ : WordleResult),
        ⟨20, 3, false, "", "A", 0⟩] 7 7 "A" =
      getScores ([(⟨10, 3, false, "", "A", 0⟩ : WordleResult),
        ⟨20, 3, false, "", "A", 0⟩].filter
          (fun r => decide (7 ≤ r.wordleDay ∧ r.wordleDay ≤ 7 + 7 - 1))) "A" :=
  (getWeeklyScores_eq_getScores_window [(⟨10, 3, false, "", "A", 0⟩ : WordleResult),
    ⟨20, 3, false, "", "A", 0⟩] 7 7 "A").1

/-- Witness for C9: on the example boards A passed B, so B did not pass A. -/
theorem getPlayersPassed_no_mutual_witness :
    ("B", "A") ∉ getPlayersPassed [("A", 2), ("B", 3)] [("A", 4), ("B", 3)] :=
  getPlayersPassed_no_mutual [("A", 2), ("B", 3)] [("A", 4), ("B", 3)] "A" "B" (by decide)

/-- Witness for C10: the all-failure player A has no `getScores` key but a
positive `getAverages` count; the solver B has a positive score. -/
theorem getScores_keys_positive_witness :
    "A" ∉ scoreKeys [(⟨5, -1, false, "", "A", 0⟩ : WordleResult),
        ⟨5, 2, false, "", "B", 0⟩] ∧
    0 < avgCounts [(⟨5, -1, false, "", "A", 0⟩ : WordleResult),
        ⟨5, 2, false, "", "B", 0⟩] "A" ∧
    0 < getScores [(⟨5, -1, false, "", "A", 0⟩ : WordleResult),
        ⟨5, 2, false, "", "B", 0⟩] "B" :=
  ⟨((getScores_keys_positive _).2.2 "A" (by decide)).1,
   ((getScores_keys_positive _).2.2 "A" (by decide)).2
     ⟨⟨5, -1, false, "", "A", 0⟩, by decide, rfl⟩,
   (getScores_keys_positive _).2.1 "B" (by decide)⟩

end JontrasBot
